import Mathlib

/-!
Shallow embedding of the harmonic-estimation engine of `wavefit`
(`wavefit/__init__.py`): the cosine model, window generation and
normalization, the FFT-based frequency-estimator seed, the reference
refinement post-processing, synchronous harmonic extraction, and
time-domain reconstruction.  Machine floating-point arithmetic is
modelled by real (and complex) arithmetic; numpy arrays by lists of
reals indexed with a zero default; the external nonlinear solver
(`scipy.optimize.curve_fit`) by an injected capability that either
returns fitted parameters or fails.
-/

open Real

noncomputable section

namespace Wavefit

/-- The four-parameter cosine model `cosine_fit(t, x0, A, ω, ϕ) = x0 + A·cos(ω·t + ϕ)`. -/
def cosine_fit (t x0 A ω ϕ : ℝ) : ℝ := x0 + A * Real.cos (ω * t + ϕ)

/-- Arithmetic mean of a list of samples (`numpy.mean`). -/
def mean (x : List ℝ) : ℝ := x.sum / x.length

/-- Population standard deviation (`numpy.std`, divisor `N`):
square root of the mean squared deviation from the mean. -/
def popStd (x : List ℝ) : ℝ := Real.sqrt (mean (x.map fun v => (v - mean x) ^ 2))

/-- Python's `%` on reals: `x % p = x - p·⌊x/p⌋`. -/
def pymod (x p : ℝ) : ℝ := x - p * (⌊x / p⌋ : ℤ)

/-- The Hann window `numpy.hanning`: empty for `N = 0`, `[1]` for `N = 1`,
and `w[k] = 1/2 - 1/2·cos(2πk/(N-1))` for `N ≥ 2`. -/
def hanning : ℕ → List ℝ
  | 0 => []
  | 1 => [1]
  | N + 2 => (List.range (N + 2)).map fun k => 1 / 2 - 1 / 2 * Real.cos (2 * π * k / (N + 1))

/-- The window used by `find_harmonics`: the selected shape's weights for
`N` samples, each multiplied by `2 / (sum of the weights)`
(`window = window(N); window *= 2 / window.sum()`).  The division is
performed unconditionally, with no guard against a zero sum. -/
def normWindow (window : ℕ → List ℝ) (N : ℕ) : List ℝ :=
  (window N).map fun v => v * (2 / (window N).sum)

/-- Bin `j` of the discrete Fourier transform of the real sequence
`x[0..N-1]` (`numpy.fft.rfft` exposes exactly these values for
`j = 0..N/2`). -/
def rfftBin (x : ℕ → ℝ) (N : ℕ) (j : ℕ) : ℂ :=
  ∑ k ∈ Finset.range N, (x k : ℂ) *
    Complex.exp (-(2 * (π : ℂ) * Complex.I * j * k) / N)

/-- `numpy.fft.fftfreq(N, dt)[k]` for `0 ≤ k < N`: `k/(N·dt)` on the
nonnegative half, `(k-N)/(N·dt)` on the negative half. -/
def fftfreq (N : ℕ) (dt : ℝ) (k : ℕ) : ℝ :=
  if k < (N + 1) / 2 then (k : ℝ) / (N * dt) else ((k : ℝ) - N) / (N * dt)

/-- Index of the first entry of maximal magnitude among `F 0, …, F (m-1)`
(`numpy.argmax(abs(·))` over an array of `m` spectrum bins). -/
def argmaxMag (F : ℕ → ℂ) (m : ℕ) : ℕ :=
  ((List.range m).argmax fun j => Complex.abs (F j)).getD 0

/-- The demeaned, windowed reference trace of `find_harmonics`:
`ref_w[k] = (ref[k] - mean ref) · w[k]` with `w` the normalized window. -/
def refWindowed (t ref : List ℝ) (window : ℕ → List ℝ) : ℕ → ℝ :=
  fun k => (ref.getD k 0 - mean ref) * (normWindow window t.length).getD k 0

/-- The bin index `i = argmax(abs(ref_f))` chosen by `find_harmonics`,
where `ref_f = np.fft.rfft(ref_w)[:N//2]`: the search ranges over the
first `N/2` bins only. -/
def peakBin (t ref : List ℝ) (window : ℕ → List ℝ) : ℕ :=
  argmaxMag (fun j => rfftBin (refWindowed t ref window) t.length j) (t.length / 2)

/-- The seed `p0 = (offset, abs(A), ωg, angle(A) - ωg·t[0])` that
`find_harmonics` passes to the nonlinear solver, with
`A = ref_f[i]`, `ωg = 2π·f[i]`, `f = np.fft.fftfreq(N, dt)[:N//2]`. -/
def refSeed (t ref : List ℝ) (window : ℕ → List ℝ) : ℝ × ℝ × ℝ × ℝ :=
  (mean ref,
   Complex.abs (rfftBin (refWindowed t ref window) t.length (peakBin t ref window)),
   2 * π * fftfreq t.length (t.getD 1 0 - t.getD 0 0) (peakBin t ref window),
   Complex.arg (rfftBin (refWindowed t ref window) t.length (peakBin t ref window)) -
     2 * π * fftfreq t.length (t.getD 1 0 - t.getD 0 0) (peakBin t ref window) * t.getD 0 0)

/-- One record of the result bag: the entries `ω{n}`, `A~{n}`, `A{n}`,
`ϕ{n}` that `find_harmonics` stores for harmonic `n`. -/
structure HarmonicRecord where
  n : ℕ
  ω : ℝ
  Ac : ℂ
  A : ℝ
  ϕ : ℝ

instance : Inhabited HarmonicRecord := ⟨⟨0, 0, 0, 0, 0⟩⟩

/-- The result bag of `find_harmonics`: the reference-fit entries plus the
ordered harmonic records. -/
structure HarmonicFit where
  numHarmonics : ℕ
  refOffset : ℝ
  refA : ℝ
  refω : ℝ
  refϕ : ℝ
  refError : ℝ
  recs : List HarmonicRecord

instance : Inhabited HarmonicFit := ⟨⟨0, 0, 0, 0, 0, 0, []⟩⟩

/-- The external nonlinear least-squares solver (`scipy.optimize.curve_fit`),
modelled as an injected capability: given the model function, the sample
abscissae and ordinates, and the initial parameter guess, it returns the
fitted `(x0, A, ω, ϕ)` or fails with an error of type `E`
(the `ConvergenceError`). -/
def Solver (E : Type) : Type :=
  (ℝ → ℝ → ℝ → ℝ → ℝ → ℝ) → List ℝ → List ℝ → (ℝ × ℝ × ℝ × ℝ) → Except E (ℝ × ℝ × ℝ × ℝ)

/-- Harmonic `n` as computed in the loop of `find_harmonics`:
`ω = n·ω0`, `A = (sig · exp(-i(ω·t + n·ϕ0))).sum()` with
`sig[k] = (signal[k] - mean signal)·w[k]`, recording `|A|` and `arg A`. -/
def harmonicRecord (t signal w : List ℝ) (ω0 ϕ0 : ℝ) (n : ℕ) : HarmonicRecord :=
  { n := n
    ω := (n : ℝ) * ω0
    Ac := ∑ k ∈ Finset.range t.length,
      (((signal.getD k 0 - mean signal) * w.getD k 0 : ℝ) : ℂ) *
        Complex.exp (-Complex.I * (((n : ℝ) * ω0 * t.getD k 0 + (n : ℝ) * ϕ0 : ℝ) : ℂ))
    A := Complex.abs (∑ k ∈ Finset.range t.length,
      (((signal.getD k 0 - mean signal) * w.getD k 0 : ℝ) : ℂ) *
        Complex.exp (-Complex.I * (((n : ℝ) * ω0 * t.getD k 0 + (n : ℝ) * ϕ0 : ℝ) : ℂ)))
    ϕ := Complex.arg (∑ k ∈ Finset.range t.length,
      (((signal.getD k 0 - mean signal) * w.getD k 0 : ℝ) : ℂ) *
        Complex.exp (-Complex.I * (((n : ℝ) * ω0 * t.getD k 0 + (n : ℝ) * ϕ0 : ℝ) : ℂ))) }

/-- Everything `find_harmonics` does after the solver returns `popt`:
store the fitted parameters, wrap the phase into `[0, 2π)` with `%`,
compute the residual standard deviation against the raw reference (using
the unwrapped `popt`, as `cosine_fit(t, *popt)` does), and extract the
harmonics from the demeaned, windowed signal using the refined `(ω, ϕ)`. -/
def postFit (t ref signal : List ℝ) (harmonics : ℕ) (window : ℕ → List ℝ) :
    ℝ × ℝ × ℝ × ℝ → HarmonicFit
  | (x0, A0, ω0, ϕ0) =>
    { numHarmonics := harmonics
      refOffset := x0
      refA := A0
      refω := ω0
      refϕ := pymod ϕ0 (2 * π)
      refError := popStd ((List.range t.length).map fun k =>
        ref.getD k 0 - cosine_fit (t.getD k 0) x0 A0 ω0 ϕ0)
      recs := (List.range harmonics).map fun n0 =>
        harmonicRecord t signal (normWindow window t.length) ω0 (pymod ϕ0 (2 * π)) (n0 + 1) }

/-- `find_harmonics(t, ref, signal, harmonics, window)`: compute the
frequency-estimator seed, run the solver on the raw reference trace, and
on success post-process and extract the harmonics; a solver failure
propagates unchanged and produces no result. -/
def find_harmonics {E : Type} (solver : Solver E) (t ref signal : List ℝ)
    (harmonics : ℕ) (window : ℕ → List ℝ) : Except E HarmonicFit :=
  (solver cosine_fit t ref (refSeed t ref window)).map (postFit t ref signal harmonics window)

/-- A numpy value that is either a python scalar or an array: the
accumulator of `harmonic_reconstruct` starts as the scalar `0` and numpy
broadcasting turns it into an array on the first `+=`. -/
inductive NPVal where
  | scalar : ℝ → NPVal
  | arr : List ℝ → NPVal

/-- numpy `+` with scalar/array broadcasting. -/
def NPVal.add : NPVal → NPVal → NPVal
  | .scalar a, .scalar b => .scalar (a + b)
  | .scalar a, .arr b => .arr (b.map fun x => a + x)
  | .arr a, .scalar b => .arr (a.map fun x => x + b)
  | .arr a, .arr b => .arr (List.zipWith (· + ·) a b)

/-- The value of an `NPVal` at index `k` (a scalar broadcasts). -/
def NPVal.atIdx : NPVal → ℕ → ℝ
  | .scalar v, _ => v
  | .arr l, k => l.getD k 0

/-- The loop of `harmonic_reconstruct` after `m` iterations:
`x = 0`, then `x += A·cos(ω·t + ϕ + n·ϕ0)` for `n = 1..m`, reading
harmonic `n` from record `n-1` of the fit. -/
def reconstructLoop (t : List ℝ) (d : HarmonicFit) : ℕ → NPVal
  | 0 => NPVal.scalar 0
  | m + 1 =>
    NPVal.add (reconstructLoop t d m)
      (NPVal.arr (t.map fun tk =>
        (d.recs.getD m default).A *
          Real.cos ((d.recs.getD m default).ω * tk + (d.recs.getD m default).ϕ +
            ((m + 1 : ℕ) : ℝ) * d.refϕ)))

/-- `harmonic_reconstruct(t, d) = Σ_{n=1}^{H} A_n·cos(ω_n·t + ϕ_n + n·ϕ0)`,
accumulated exactly as the source loop does (accumulator initialized to
the scalar `0`). -/
def harmonic_reconstruct (t : List ℝ) (d : HarmonicFit) : NPVal :=
  reconstructLoop t d d.numHarmonics

/-- Concrete always-converging solver used to evaluate the engine on
closed inputs. -/
def demoSolver : Solver Unit := fun _ _ _ _ => .ok (0, 1, 1, 0)

/-- Concrete never-converging solver used to evaluate error propagation
on closed inputs. -/
def demoFailSolver : Solver Unit := fun _ _ _ _ => .error ()

/-- The fit produced by `find_harmonics` on the closed demo input with
`H = 1`. -/
def demoFit : HarmonicFit := postFit [0, 1] [1, -1] [1, -1] 1 hanning (0, 1, 1, 0)

/-- The fit produced by `find_harmonics` on the closed demo input with
`H = 0`. -/
def demoFit0 : HarmonicFit := postFit [0, 1] [1, -1] [1, -1] 0 hanning (0, 1, 1, 0)

lemma pymod_eq_fract (x : ℝ) {p : ℝ} (hp : p ≠ 0) :
    pymod x p = p * Int.fract (x / p) := by
  have hx : p * (x / p) = x := by field_simp
  unfold pymod Int.fract
  rw [mul_sub, hx]

lemma pymod_nonneg (x : ℝ) {p : ℝ} (hp : 0 < p) : 0 ≤ pymod x p := by
  rw [pymod_eq_fract x hp.ne']
  exact mul_nonneg hp.le (Int.fract_nonneg _)

lemma pymod_lt (x : ℝ) {p : ℝ} (hp : 0 < p) : pymod x p < p := by
  rw [pymod_eq_fract x hp.ne']
  calc p * Int.fract (x / p) < p * 1 :=
        mul_lt_mul_of_pos_left (Int.fract_lt_one _) hp
    _ = p := mul_one p

lemma find_harmonics_ok_iff {E : Type} {solver : Solver E} {t ref signal : List ℝ}
    {H : ℕ} {window : ℕ → List ℝ} {d : HarmonicFit} :
    find_harmonics solver t ref signal H window = .ok d ↔
      ∃ popt, solver cosine_fit t ref (refSeed t ref window) = .ok popt ∧
        postFit t ref signal H window popt = d := by
  unfold find_harmonics
  cases h : solver cosine_fit t ref (refSeed t ref window) with
  | error e0 => simp [Except.map]
  | ok popt => simp [Except.map]

/-- C3: if the nonlinear fit of the cosine model to the raw reference
fails, `find_harmonics` fails with exactly that error — it propagates
unchanged, with no retry and no alternate seeding (the solver is invoked
once, on `cosine_fit`, the raw `t`/`ref`, and the single seed
`refSeed`) — and conversely an error can only come from the solver; on
failure no `HarmonicFit` and no harmonic records are produced. -/
theorem find_harmonics_error_propagation {E : Type} (solver : Solver E)
    (t ref signal : List ℝ) (H : ℕ) (window : ℕ → List ℝ) (e : E) :
    find_harmonics solver t ref signal H window = .error e ↔
      solver cosine_fit t ref (refSeed t ref window) = .error e := by
  unfold find_harmonics
  cases h : solver cosine_fit t ref (refSeed t ref window) with
  | error e0 => simp [Except.map]
  | ok popt => simp [Except.map]

/-- C4: whenever `find_harmonics` returns a result, the stored refined
reference phase lies in `[0, 2π)`, whatever phase the solver produced. -/
theorem find_harmonics_phase_range {E : Type} (solver : Solver E)
    (t ref signal : List ℝ) (H : ℕ) (window : ℕ → List ℝ) (d : HarmonicFit)
    (hd : find_harmonics solver t ref signal H window = .ok d) :
    0 ≤ d.refϕ ∧ d.refϕ < 2 * π := by
  obtain ⟨⟨x0, A0, ω0, ϕ0⟩, hsol, hpost⟩ := find_harmonics_ok_iff.mp hd
  subst hpost
  exact ⟨pymod_nonneg _ Real.two_pi_pos, pymod_lt _ Real.two_pi_pos⟩

/-- C4 witness: the phase-range invariant evaluated on a closed input. -/
theorem find_harmonics_phase_range_witness :
    0 ≤ demoFit.refϕ ∧ demoFit.refϕ < 2 * π :=
  find_harmonics_phase_range demoSolver [0, 1] [1, -1] [1, -1] 1 hanning demoFit rfl

/-- C10: when the stored harmonic count is 0, `harmonic_reconstruct`
returns the scalar constant 0 (the accumulator's initial value; the loop
body never runs), not an array with one sample per time point. -/
theorem harmonic_reconstruct_H0 (t : List ℝ) (d : HarmonicFit)
    (h : d.numHarmonics = 0) : harmonic_reconstruct t d = NPVal.scalar 0 := by
  rw [harmonic_reconstruct, h, reconstructLoop]

/-- C10 witness: reconstruction of a zero-harmonic fit on a closed time
array yields the scalar 0. -/
theorem harmonic_reconstruct_H0_witness :
    harmonic_reconstruct [0, 1] demoFit0 = NPVal.scalar 0 :=
  harmonic_reconstruct_H0 [0, 1] demoFit0 rfl

lemma hanning_two : hanning 2 = [0, 0] := by
  have h2 : hanning 2 = (List.range 2).map
      fun k => 1 / 2 - 1 / 2 * Real.cos (2 * π * k / ((0 : ℕ) + 1)) := rfl
  rw [h2]
  have hr : List.range 2 = [0, 1] := rfl
  rw [hr]
  norm_num [Real.cos_two_pi]

lemma hanning_one : hanning 1 = [1] := rfl

lemma hanning_two_sum : (hanning 2).sum = 0 := by
  rw [hanning_two]; norm_num

lemma sum_map_mul_const (l : List ℝ) (c : ℝ) :
    (l.map fun v => v * c).sum = l.sum * c := by
  induction l with
  | nil => simp
  | cons a l ih => simp [ih, add_mul]

/-- C5 counterexample: at sample count `N = 2` with the default Hann
window the engine's rescaled weights do not sum to 2: the unscaled
weights are all zero, so the rescaling divides by a zero sum and the
rescaled sum is 0, not 2. -/
theorem normWindow_hann2_sum_ne_two : (normWindow hanning 2).sum ≠ 2 := by
  rw [normWindow, hanning_two]
  norm_num

/-- C5 amended: for every sample count `N` at which the selected window
shape's weights have nonzero sum, the engine's rescaled weights sum to 2. -/
theorem normWindow_sum_eq_two (window : ℕ → List ℝ) (N : ℕ)
    (h : (window N).sum ≠ 0) : (normWindow window N).sum = 2 := by
  rw [normWindow, sum_map_mul_const, mul_comm, div_mul_cancel₀ _ h]

/-- C5 witness: at `N = 1` the Hann weights sum to `1 ≠ 0` and the
rescaled weights sum to 2. -/
theorem normWindow_sum_eq_two_witness :
    (hanning 1).sum ≠ 0 ∧ (normWindow hanning 1).sum = 2 :=
  ⟨by rw [hanning_one]; norm_num,
   normWindow_sum_eq_two hanning 1 (by rw [hanning_one]; norm_num)⟩

/-- C9: the window normalization has no zero guard: on the valid input
with `N = 2` samples and the default Hann window, every unscaled window
weight is zero, the normalization divides by the zero sum anyway, and the
computation proceeds to a result (when the solver converges) instead of
raising an error.  Total real division models the unguarded IEEE division
by zero. -/
theorem find_harmonics_hann2_no_guard :
    hanning 2 = [0, 0] ∧ (hanning 2).sum = 0 ∧
    normWindow hanning 2 = (hanning 2).map (fun v => v * (2 / (0 : ℝ))) ∧
    find_harmonics demoSolver [0, 1] [1, -1] [1, -1] 1 hanning = .ok demoFit :=
  ⟨hanning_two, hanning_two_sum, by rw [normWindow, hanning_two_sum], rfl⟩

/-- C8: `H = 1` yields exactly one harmonic record, the fundamental
(index 1); `H = 0` is not rejected: whenever the solver converges the
call returns a fit whose harmonic sequence is empty — the engine applies
the empty-sequence policy uniformly. -/
theorem find_harmonics_H_boundary {E : Type} (solver : Solver E)
    (t ref signal : List ℝ) (window : ℕ → List ℝ) :
    (∀ d, find_harmonics solver t ref signal 1 window = .ok d →
      d.recs.length = 1 ∧ (d.recs.getD 0 default).n = 1) ∧
    (∀ d, find_harmonics solver t ref signal 0 window = .ok d → d.recs = []) ∧
    (∀ popt, solver cosine_fit t ref (refSeed t ref window) = .ok popt →
      find_harmonics solver t ref signal 0 window =
        .ok (postFit t ref signal 0 window popt)) := by
  refine ⟨?_, ?_, ?_⟩
  · intro d hd
    obtain ⟨⟨x0, A0, ω0, ϕ0⟩, hsol, hpost⟩ := find_harmonics_ok_iff.mp hd
    subst hpost
    exact ⟨rfl, rfl⟩
  · intro d hd
    obtain ⟨⟨x0, A0, ω0, ϕ0⟩, hsol, hpost⟩ := find_harmonics_ok_iff.mp hd
    subst hpost
    rfl
  · intro popt hsol
    unfold find_harmonics
    rw [hsol]
    rfl

/-- C8 witness: on a closed input, `H = 1` gives one record with index 1
and `H = 0` gives an empty record list. -/
theorem find_harmonics_H_boundary_witness :
    demoFit.recs.length = 1 ∧ (demoFit.recs.getD 0 default).n = 1 ∧
      demoFit0.recs = [] :=
  ⟨((find_harmonics_H_boundary demoSolver [0, 1] [1, -1] [1, -1] hanning).1 demoFit rfl).1,
   ((find_harmonics_H_boundary demoSolver [0, 1] [1, -1] [1, -1] hanning).1 demoFit rfl).2,
   (find_harmonics_H_boundary demoSolver [0, 1] [1, -1] [1, -1] hanning).2.1 demoFit0 rfl⟩

lemma getD_map_range {α : Type} (f : ℕ → α) (d0 : α) {m k : ℕ} (hk : k < m) :
    (((List.range m).map f).getD k d0) = f k := by
  rw [List.getD_eq_getElem _ _ (by simpa using hk)]
  simp

lemma cos_add_pymod (a b : ℝ) :
    Real.cos (a + pymod b (2 * π)) = Real.cos (a + b) := by
  have h : a + pymod b (2 * π) = (a + b) - (⌊b / (2 * π)⌋ : ℤ) * (2 * π) := by
    unfold pymod; ring
  rw [h, Real.cos_sub_int_mul_two_pi]

/-- C1: whenever `find_harmonics` returns a fit, it carries one record per
`n = 1..H`; the record for harmonic `n` stores the angular frequency
`n·ω0` (`ω0` the refined reference frequency), the complex amplitude
`Σ_k (signal[k] − mean signal)·w[k]·exp(−i·(ω_n·t[k] + n·ϕ0))` with `w`
the normalized window and `ϕ0` the refined reference phase, and the
magnitude and phase of that complex amplitude. -/
theorem find_harmonics_harmonic_records {E : Type} (solver : Solver E)
    (t ref signal : List ℝ) (H : ℕ) (window : ℕ → List ℝ) (d : HarmonicFit)
    (hd : find_harmonics solver t ref signal H window = .ok d)
    (n : ℕ) (h1 : 1 ≤ n) (h2 : n ≤ H) :
    d.recs.length = H ∧
    (d.recs.getD (n - 1) default).n = n ∧
    (d.recs.getD (n - 1) default).ω = (n : ℝ) * d.refω ∧
    (d.recs.getD (n - 1) default).Ac =
      ∑ k ∈ Finset.range t.length,
        (((signal.getD k 0 - mean signal) * (normWindow window t.length).getD k 0 : ℝ) : ℂ) *
          Complex.exp (-Complex.I *
            (((n : ℝ) * d.refω * t.getD k 0 + (n : ℝ) * d.refϕ : ℝ) : ℂ)) ∧
    (d.recs.getD (n - 1) default).A = Complex.abs ((d.recs.getD (n - 1) default).Ac) ∧
    (d.recs.getD (n - 1) default).ϕ = Complex.arg ((d.recs.getD (n - 1) default).Ac) := by
  obtain ⟨⟨x0, A0, ω0, ϕ0⟩, hsol, hpost⟩ := find_harmonics_ok_iff.mp hd
  subst hpost
  have hk : n - 1 < H := by omega
  have hget : ((postFit t ref signal H window (x0, A0, ω0, ϕ0)).recs.getD (n - 1) default)
      = harmonicRecord t signal (normWindow window t.length) ω0 (pymod ϕ0 (2 * π))
          (n - 1 + 1) :=
    getD_map_range _ _ hk
  have hn1 : n - 1 + 1 = n := by omega
  rw [hn1] at hget
  refine ⟨by simp [postFit], ?_, ?_, ?_, ?_, ?_⟩ <;> rw [hget] <;> rfl

/-- C1 witness: the record equations evaluated on a closed input with
`H = 1`, `n = 1`. -/
theorem find_harmonics_harmonic_records_witness :
    demoFit.recs.length = 1 ∧
    (demoFit.recs.getD 0 default).n = 1 ∧
    (demoFit.recs.getD 0 default).ω = ((1 : ℕ) : ℝ) * demoFit.refω ∧
    (demoFit.recs.getD 0 default).Ac =
      ∑ k ∈ Finset.range (List.length ([0, 1] : List ℝ)),
        (((List.getD ([1, -1] : List ℝ) k 0 - mean [1, -1]) *
            (normWindow hanning (List.length ([0, 1] : List ℝ))).getD k 0 : ℝ) : ℂ) *
          Complex.exp (-Complex.I *
            ((((1 : ℕ) : ℝ) * demoFit.refω * List.getD ([0, 1] : List ℝ) k 0 +
              ((1 : ℕ) : ℝ) * demoFit.refϕ : ℝ) : ℂ)) ∧
    (demoFit.recs.getD 0 default).A = Complex.abs ((demoFit.recs.getD 0 default).Ac) ∧
    (demoFit.recs.getD 0 default).ϕ = Complex.arg ((demoFit.recs.getD 0 default).Ac) :=
  find_harmonics_harmonic_records demoSolver [0, 1] [1, -1] [1, -1] 1 hanning demoFit
    rfl 1 le_rfl le_rfl

/-- C7: the stored residual metric is the population standard deviation
(divisor `N`) of the pointwise residual between the raw reference and the
fitted cosine model evaluated at the stored parameters, over all samples;
the engine enforces no threshold on it (the result is returned whatever
its value). -/
theorem find_harmonics_ref_error {E : Type} (solver : Solver E)
    (t ref signal : List ℝ) (H : ℕ) (window : ℕ → List ℝ) (d : HarmonicFit)
    (hd : find_harmonics solver t ref signal H window = .ok d) :
    d.refError = popStd ((List.range t.length).map fun k =>
      ref.getD k 0 -
        (d.refOffset + d.refA * Real.cos (d.refω * t.getD k 0 + d.refϕ))) := by
  obtain ⟨⟨x0, A0, ω0, ϕ0⟩, hsol, hpost⟩ := find_harmonics_ok_iff.mp hd
  subst hpost
  have hfun : (fun k : ℕ => ref.getD k 0 - cosine_fit (t.getD k 0) x0 A0 ω0 ϕ0)
      = fun k : ℕ =>
        ref.getD k 0 - (x0 + A0 * Real.cos (ω0 * t.getD k 0 + pymod ϕ0 (2 * π))) := by
    funext k
    rw [cosine_fit, cos_add_pymod]
  show popStd ((List.range t.length).map fun k =>
      ref.getD k 0 - cosine_fit (t.getD k 0) x0 A0 ω0 ϕ0) = _
  rw [hfun]
  rfl

/-- C7 witness: the residual-standard-deviation equation evaluated on a
closed input. -/
theorem find_harmonics_ref_error_witness :
    demoFit.refError = popStd ((List.range (List.length ([0, 1] : List ℝ))).map fun k =>
      List.getD ([1, -1] : List ℝ) k 0 -
        (demoFit.refOffset + demoFit.refA *
          Real.cos (demoFit.refω * List.getD ([0, 1] : List ℝ) k 0 + demoFit.refϕ))) :=
  find_harmonics_ref_error demoSolver [0, 1] [1, -1] [1, -1] 1 hanning demoFit rfl

lemma argmaxMag_lt (F : ℕ → ℂ) {m : ℕ} (hm : 0 < m) : argmaxMag F m < m := by
  unfold argmaxMag
  cases h : (List.range m).argmax fun j => Complex.abs (F j) with
  | none =>
    exfalso
    rw [List.argmax_eq_none] at h
    have := congrArg List.length h
    simp at this
    omega
  | some a =>
    have ha : a ∈ List.range m := List.argmax_mem (Option.mem_def.mpr h)
    simpa using List.mem_range.mp ha

lemma fftfreq_of_lt_half (N : ℕ) (dt : ℝ) {k : ℕ} (hk : k < N / 2) :
    fftfreq N dt k = (k : ℝ) / (N * dt) := by
  unfold fftfreq
  rw [if_pos (by omega)]

/-- C2: the refiner seed is
`(mean ref, |F[i]|, ωg = 2π·i/(N·dt), arg(F[i]) − ωg·t[0])`, where `F` is
the real-input DFT of the demeaned reference multiplied by the normalized
window, and the peak index `i` is the argmax of the bin magnitudes over
the first `N/2` bins only — in particular `i < N/2`, so the search never
considers bins at or above index `N/2`, and the phase guess is corrected
by subtracting `ωg·t[0]`. -/
theorem refSeed_frequency_estimator (t ref : List ℝ) (window : ℕ → List ℝ)
    (hN : 2 ≤ t.length) :
    peakBin t ref window < t.length / 2 ∧
    refSeed t ref window =
      (mean ref,
       Complex.abs (rfftBin (refWindowed t ref window) t.length (peakBin t ref window)),
       2 * π * ((peakBin t ref window : ℝ) /
         ((t.length : ℝ) * (t.getD 1 0 - t.getD 0 0))),
       Complex.arg (rfftBin (refWindowed t ref window) t.length (peakBin t ref window)) -
         2 * π * ((peakBin t ref window : ℝ) /
           ((t.length : ℝ) * (t.getD 1 0 - t.getD 0 0))) * t.getD 0 0) := by
  have hb : peakBin t ref window < t.length / 2 := by
    unfold peakBin
    exact argmaxMag_lt _ (by omega)
  refine ⟨hb, ?_⟩
  unfold refSeed
  rw [fftfreq_of_lt_half _ _ hb]

/-- C2 witness: the seed equations evaluated on a closed two-sample
input. -/
theorem refSeed_frequency_estimator_witness :
    peakBin [0, 1] [1, -1] hanning < List.length ([0, 1] : List ℝ) / 2 ∧
    refSeed [0, 1] [1, -1] hanning =
      (mean [1, -1],
       Complex.abs (rfftBin (refWindowed [0, 1] [1, -1] hanning)
         (List.length ([0, 1] : List ℝ)) (peakBin [0, 1] [1, -1] hanning)),
       2 * π * ((peakBin [0, 1] [1, -1] hanning : ℝ) /
         ((List.length ([0, 1] : List ℝ) : ℝ) *
           (List.getD ([0, 1] : List ℝ) 1 0 - List.getD ([0, 1] : List ℝ) 0 0))),
       Complex.arg (rfftBin (refWindowed [0, 1] [1, -1] hanning)
           (List.length ([0, 1] : List ℝ)) (peakBin [0, 1] [1, -1] hanning)) -
         2 * π * ((peakBin [0, 1] [1, -1] hanning : ℝ) /
           ((List.length ([0, 1] : List ℝ) : ℝ) *
             (List.getD ([0, 1] : List ℝ) 1 0 - List.getD ([0, 1] : List ℝ) 0 0))) *
           List.getD ([0, 1] : List ℝ) 0 0) :=
  refSeed_frequency_estimator [0, 1] [1, -1] hanning (by norm_num)

lemma zipWith_add_map (f g : ℝ → ℝ) (t : List ℝ) :
    List.zipWith (· + ·) (t.map f) (t.map g) = t.map fun a => f a + g a := by
  induction t with
  | nil => rfl
  | cons a t ih => simp [ih]

lemma reconstructLoop_eq_arr (t : List ℝ) (d : HarmonicFit) :
    ∀ m : ℕ, 1 ≤ m →
      reconstructLoop t d m = NPVal.arr (t.map fun tk =>
        ∑ n0 ∈ Finset.range m,
          (d.recs.getD n0 default).A *
            Real.cos ((d.recs.getD n0 default).ω * tk + (d.recs.getD n0 default).ϕ +
              ((n0 + 1 : ℕ) : ℝ) * d.refϕ)) := by
  intro m
  induction m with
  | zero => omega
  | succ m ih =>
    intro _
    by_cases hm : 1 ≤ m
    · rw [reconstructLoop, ih hm]
      show NPVal.arr (List.zipWith _ _ _) = _
      rw [zipWith_add_map]
      congr 1
      congr 1
      funext tk
      rw [Finset.sum_range_succ]
    · have hm0 : m = 0 := by omega
      subst hm0
      rw [reconstructLoop, reconstructLoop]
      show NPVal.arr ((t.map _).map _) = _
      rw [List.map_map]
      congr 1
      congr 1
      funext tk
      simp [Function.comp, Finset.sum_range_one]

/-- C6: `harmonic_reconstruct` returns, at every index of the time array,
exactly `Σ_{n=1}^{H} A_n·cos(ω_n·t + ϕ_n + n·ϕ0)` with `H` the stored
harmonic count, `(A_n, ω_n, ϕ_n)` the stored magnitude, angular frequency
and phase of harmonic `n`, and `ϕ0` the stored reference phase; being a
pure function of an immutable fit value, it leaves the fit unmodified. -/
theorem harmonic_reconstruct_values (t : List ℝ) (d : HarmonicFit) (k : ℕ)
    (hk : k < t.length) :
    (harmonic_reconstruct t d).atIdx k =
      ∑ n ∈ Finset.Icc 1 d.numHarmonics,
        (d.recs.getD (n - 1) default).A *
          Real.cos ((d.recs.getD (n - 1) default).ω * t.getD k 0 +
            (d.recs.getD (n - 1) default).ϕ + (n : ℝ) * d.refϕ) := by
  rcases Nat.eq_zero_or_pos d.numHarmonics with h0 | hpos
  · rw [harmonic_reconstruct, h0, reconstructLoop]
    have hempty : Finset.Icc 1 0 = (∅ : Finset ℕ) := by decide
    rw [hempty, Finset.sum_empty]
    rfl
  · rw [harmonic_reconstruct, reconstructLoop_eq_arr t d d.numHarmonics hpos]
    show ((t.map _).getD k 0) = _
    rw [List.getD_eq_getElem _ _ (by simpa using hk), List.getElem_map]
    rw [← Nat.Ico_succ_right, Finset.sum_Ico_eq_sum_range]
    simp only [Nat.succ_sub_one]
    apply Finset.sum_congr rfl
    intro i _
    have h1 : 1 + i - 1 = i := by omega
    rw [h1, Nat.add_comm 1 i, List.getD_eq_getElem t 0 hk]

/-- C6 witness: the reconstruction formula evaluated at index 0 of a
closed two-sample time array. -/
theorem harmonic_reconstruct_values_witness :
    (harmonic_reconstruct [0, 1] demoFit).atIdx 0 =
      ∑ n ∈ Finset.Icc 1 demoFit.numHarmonics,
        (demoFit.recs.getD (n - 1) default).A *
          Real.cos ((demoFit.recs.getD (n - 1) default).ω *
              List.getD ([0, 1] : List ℝ) 0 0 +
            (demoFit.recs.getD (n - 1) default).ϕ + (n : ℝ) * demoFit.refϕ) :=
  harmonic_reconstruct_values [0, 1] demoFit 0 (by norm_num)

end Wavefit

end
